import Mathlib

/-!
# Verification of the CFST concurrent speed-test pipeline core

Shallow embedding of the measurement pipeline: the scoring function
(`NodeResult.CalcScore`), the block/rate-limit gate (`CheckBlocked`), the
throughput computation of `DownloadTest`, the orchestrator loop
(`RunDownloadTest`) and the address sampler (`GenerateIPs` with its helpers
`randIPFromCIDR` and the built-in `CloudflareIPv4Ranges` table).

Modelling conventions:
* Go `float64` arithmetic is modelled as exact rational arithmetic (`ℚ`);
  every concrete value appearing in the claims is exactly representable.
* Network I/O is modelled by oracles: each candidate carries the outcome the
  network would deliver (its `CheckBlocked` answer and its measured speed),
  and HTTP requests are modelled by an outcome type
  (transport failure / response with a status code).
* `math/rand` is modelled as an indexed stream of naturals `rnd : ℕ → ℕ`;
  `rand.Intn n` at stream position `i` becomes `rnd i % n`.
* Go string primitives (`strings.Split`, `strings.TrimSpace`,
  `strings.Contains`, `strings.HasPrefix`) are modelled by executable
  functions over `List Char` / `String`.
-/

namespace CFST

/-! ## ScoringFunction (`NodeResult.CalcScore`) -/

/-- Embedding of `(n *NodeResult) CalcScore()`:
`scoreSpeed = 100` unless `DownloadSpeed < 40`, in which case
`(DownloadSpeed/40)*100`; `scoreLatency = 100 - (TCPLatency-30)*0.5`
clamped below at `0`; `bonus = 5` when `Colo` is none of `"UNK"`, `"ERR"`,
`""`; result `scoreSpeed*0.8 + scoreLatency*0.2 + bonus`. -/
def CalcScore (downloadSpeed tcpLatency : ℚ) (colo : String) : ℚ :=
  let scoreSpeed : ℚ := if downloadSpeed < 40 then downloadSpeed / 40 * 100 else 100
  let scoreLatencyRaw : ℚ := 100 - (tcpLatency - 30) * 0.5
  let scoreLatency : ℚ := if scoreLatencyRaw < 0 then 0 else scoreLatencyRaw
  let bonus : ℚ := if colo ≠ "UNK" ∧ colo ≠ "ERR" ∧ colo ≠ "" then 5 else 0
  scoreSpeed * 0.8 + scoreLatency * 0.2 + bonus

/-- The speed sub-score as the spec words it: `100` if `downloadSpeed >= 40`,
else `(downloadSpeed/40)*100`. -/
def specSpeedScore (s : ℚ) : ℚ := if 40 ≤ s then 100 else s / 40 * 100

/-- The latency sub-score as the spec words it:
`max(0, 100 - (tcpLatency - 30) * 0.5)`. -/
def specLatencyScore (l : ℚ) : ℚ := max 0 (100 - (l - 30) * 0.5)

/-- The bonus as the spec words it: `5` iff the PoP label is a resolved
(`≠ "UNK"`), non-error (`≠ "ERR"`), non-empty label, else `0`. -/
def specBonus (pop : String) : ℚ := if pop ≠ "UNK" ∧ pop ≠ "ERR" ∧ pop ≠ "" then 5 else 0

/-! ## BlockGate (`CheckBlocked`) and the `DownloadTest` URL prelude -/

/-- Outcome of the single HTTP GET a probe issues: either the transport
fails (`client.Do` returns an error) or a response with a status code
arrives. -/
inductive HTTPOutcome where
  | transportFailure : HTTPOutcome
  | response (statusCode : ℕ) : HTTPOutcome
deriving DecidableEq

/-- Outcome of `url.Parse(testURL)`: on success a `*URL` from which
`Hostname()` is read, on failure a `nil` pointer alongside the error. -/
inductive URLParse where
  | ok (hostname : String) : URLParse
  | failed : URLParse
deriving DecidableEq

/-- Embedding of `CheckBlocked` over the parse and HTTP outcomes.
The source returns `false` when `url.Parse` errors, `true` on a transport
error, `true` on status `429 / 403 / 400 / 404 / 403` (the literal Go
condition, with `403` listed twice) or any status `>= 400`, else `false`. -/
def CheckBlocked (parsedURL : URLParse) (outcome : HTTPOutcome) : Bool :=
  match parsedURL with
  | .failed => false
  | .ok _ =>
    match outcome with
    | .transportFailure => true
    | .response status =>
      if status = 429 ∨ status = 403 ∨ status = 400 ∨ status = 404 ∨ status = 403 then true
      else if 400 ≤ status then true
      else false

/-- The URL prelude of `DownloadTest`: `parsedURL, _ := url.Parse(testURL)`
discards the error, then `parsedURL.Hostname()` is called unconditionally.
When the parse failed, `parsedURL` is the `nil` pointer and `Hostname()`
dereferences it: the program panics. `none` models that panic; `some h`
models normal continuation with hostname `h`. -/
def downloadTestHost : URLParse → Option String
  | .ok h => some h
  | .failed => none

/-- The elapsed-time floor at the end of `DownloadTest`:
`if realTime < 0.1 { realTime = 0.1 }`. -/
def realTimeFloored (elapsedSeconds : ℚ) : ℚ :=
  if elapsedSeconds < 0.1 then 0.1 else elapsedSeconds

/-- The final expression of `DownloadTest`:
`(float64(totalBytes) / 1024.0 / 1024.0) / realTime` after flooring. -/
def downloadTestSpeed (totalBytes : ℕ) (elapsedSeconds : ℚ) : ℚ :=
  (totalBytes : ℚ) / 1024 / 1024 / realTimeFloored elapsedSeconds

/-! ## Orchestrator (`RunDownloadTest`)

The download stage walks the candidate list sequentially; for candidate `i`
it first calls `CheckBlocked` and, if not blocked, `DownloadTest` followed by
`CalcScore`.  Both network calls are modelled as oracles carried by the
candidate: `blocked` is the answer `CheckBlocked` would give and
`measuredSpeed` the value `DownloadTest` would return. -/

/-- A candidate entering `RunDownloadTest` (a `NodeResult` produced by
`ScanPing`/`DetectColo`) together with its network oracle. -/
structure Cand where
  ip : String
  port : ℕ
  tcpLatency : ℚ
  colo : String
  blocked : Bool
  measuredSpeed : ℚ
deriving DecidableEq

/-- The `NodeResult` fields `RunDownloadTest` writes into its result list. -/
structure NodeRes where
  ip : String
  port : ℕ
  tcpLatency : ℚ
  colo : String
  downloadSpeed : ℚ
  score : ℚ
deriving DecidableEq

/-- The configuration knobs `RunDownloadTest` reads: `DownloadNum` (result
quota), `StopThreshold` (fast-exit speed threshold), `Skip429` (discard
policy for blocked candidates). -/
structure Config where
  downloadNum : ℕ
  stopThreshold : ℚ
  skip429 : Bool

/-- The entry recorded for a blocked candidate when `Skip429` is false:
`DownloadSpeed = 0.0`, `Colo = "429"` (rate-limited sentinel),
`Score = 0.0`. -/
def mkBlockedRes (c : Cand) : NodeRes :=
  { ip := c.ip, port := c.port, tcpLatency := c.tcpLatency,
    colo := "429", downloadSpeed := 0, score := 0 }

/-- The entry recorded for an unblocked candidate: the measured speed and
`CalcScore` of (speed, latency, colo). -/
def mkTestedRes (c : Cand) : NodeRes :=
  { ip := c.ip, port := c.port, tcpLatency := c.tcpLatency,
    colo := c.colo, downloadSpeed := c.measuredSpeed,
    score := CalcScore c.measuredSpeed c.tcpLatency c.colo }

/-- Loop state of `RunDownloadTest`: accumulated `results`, the cumulative
`fastCount`, plus two ghost observers — how often `fastExitHost` was
invoked, and how many loop-body iterations ran. -/
structure RDState where
  results : List NodeRes
  fastCount : ℕ
  fastExitCalls : ℕ
  consumed : ℕ

/-- The `for i := range candidates` loop of `RunDownloadTest`.
Branches mirror the source: blocked + `Skip429` ⇒ `continue` (no result,
no quota check); blocked + record mode ⇒ append the sentinel entry, then the
quota check `len(results) >= cfg.DownloadNum`; unblocked ⇒ append the tested
entry, then — when `speed >= cfg.StopThreshold` — increment `fastCount` and,
once it reaches 5, call `fastExitHost` and `break`; otherwise fall through to
the quota check. -/
def runLoop (cfg : Config) : List Cand → RDState → RDState
  | [], st => st
  | c :: rest, st =>
    if c.blocked then
      if cfg.skip429 then
        runLoop cfg rest { st with consumed := st.consumed + 1 }
      else
        let st2 : RDState :=
          { st with
            consumed := st.consumed + 1
            results := st.results ++ [mkBlockedRes c] }
        if cfg.downloadNum ≤ st2.results.length then st2 else runLoop cfg rest st2
    else
      let st2 : RDState :=
        { st with
          consumed := st.consumed + 1
          results := st.results ++ [mkTestedRes c] }
      if cfg.stopThreshold ≤ c.measuredSpeed then
        if 5 ≤ st2.fastCount + 1 then
          { st2 with
            fastCount := st2.fastCount + 1
            fastExitCalls := st2.fastExitCalls + 1 }
        else
          let st3 : RDState := { st2 with fastCount := st2.fastCount + 1 }
          if cfg.downloadNum ≤ st3.results.length then st3 else runLoop cfg rest st3
      else
        if cfg.downloadNum ≤ st2.results.length then st2 else runLoop cfg rest st2

/-- The loop starts with an empty result list and zero counters. -/
def initRDState : RDState :=
  { results := [], fastCount := 0, fastExitCalls := 0, consumed := 0 }

/-- The comparator of the final `sort.Slice(results, Score[i] > Score[j])`,
as the complementary total `le`: the sorted output of any comparison sort
for that comparator is exactly a permutation that is pairwise
non-increasing in score. -/
def scoreDescLE (a b : NodeRes) : Bool := decide (b.score ≤ a.score)

/-- `RunDownloadTest`: run the loop, then sort the result list descending by
score. -/
def RunDownloadTest (candidates : List Cand) (cfg : Config) : RDState :=
  let st := runLoop cfg candidates initRDState
  { st with results := st.results.mergeSort scoreDescLE }

/-- A candidate that increments the fast counter: unblocked with measured
speed at or above the configured threshold. -/
def isFast (cfg : Config) (c : Cand) : Bool :=
  !c.blocked && decide (cfg.stopThreshold ≤ c.measuredSpeed)

/-- Number of fast candidates in a list. -/
def countFast (cfg : Config) (l : List Cand) : ℕ :=
  (l.filter (isFast cfg)).length

/-- The block of results the loop produces from a processed block of
candidates: with `Skip429` the blocked ones are dropped, otherwise each
blocked one is recorded via `mkBlockedRes`; unblocked ones via
`mkTestedRes`. -/
def resultsOf (cfg : Config) (l : List Cand) : List NodeRes :=
  (if cfg.skip429 then l.filter (fun c => !c.blocked) else l).map
    (fun c => if c.blocked then mkBlockedRes c else mkTestedRes c)

/-- The address/port identity of a result row. -/
def resKey (r : NodeRes) : String × ℕ := (r.ip, r.port)

/-- The address/port identity of a candidate. -/
def candKey (c : Cand) : String × ℕ := (c.ip, c.port)

/-- A doubly-sampled candidate: bulk-mode sampling can emit the same address
twice, and both copies survive probing into the download stage. -/
def dupCand : Cand :=
  { ip := "1.1.1.1", port := 443, tcpLatency := 10, colo := "LAX",
    blocked := false, measuredSpeed := 1 }

/-- Configuration for the duplicate-candidate run: quota 10, fast threshold
25, discard policy on. -/
def dupCfg : Config := { downloadNum := 10, stopThreshold := 25, skip429 := true }

/-- A fast unblocked candidate (speed 30 ≥ threshold 25). -/
def fastCand : Cand :=
  { ip := "1.0.0.1", port := 443, tcpLatency := 10, colo := "LAX",
    blocked := false, measuredSpeed := 30 }

/-- Configuration for the fast-exit run: quota 10, fast threshold 25. -/
def fastCfg : Config := { downloadNum := 10, stopThreshold := 25, skip429 := true }

/-- A blocked candidate. -/
def blkCand : Cand :=
  { ip := "2.2.2.2", port := 443, tcpLatency := 10, colo := "LAX",
    blocked := true, measuredSpeed := 50 }

/-- An unblocked, slow candidate. -/
def okCand : Cand :=
  { ip := "3.3.3.3", port := 443, tcpLatency := 20, colo := "SJC",
    blocked := false, measuredSpeed := 1 }

/-- Configuration with the discard policy enabled. -/
def polCfg : Config := { downloadNum := 10, stopThreshold := 25, skip429 := true }

/-! ## AddressSampler (`GenerateIPs`, `randIPFromCIDR`)

`math/rand` is modelled by an indexed oracle `rnd : ℕ → ℕ`; a call
`rand.Intn n` consuming stream position `i` becomes `rnd i % n`.  Go string
primitives are modelled by executable functions over `List Char`. -/

/-- The built-in default range table `CloudflareIPv4Ranges`. -/
def CloudflareIPv4Ranges : List String :=
  ["173.245.48.0/20", "103.21.244.0/22", "103.22.200.0/22", "103.31.4.0/22",
   "141.101.64.0/18", "108.162.192.0/18", "190.93.240.0/20", "188.114.96.0/20",
   "197.234.240.0/22", "198.41.128.0/17", "162.158.0.0/15", "104.16.0.0/13",
   "104.24.0.0/14", "172.64.0.0/13", "131.0.72.0/22"]

/-- `strings.Split` on a single separator character, over characters. -/
def splitOn (sep : Char) : List Char → List (List Char)
  | [] => [[]]
  | c :: cs =>
    if c = sep then [] :: splitOn sep cs
    else
      match splitOn sep cs with
      | [] => [[c]]
      | w :: ws => (c :: w) :: ws

/-- `strings.TrimSpace`: drop whitespace from both ends. -/
def trimSpace (s : List Char) : List Char :=
  (((s.dropWhile Char.isWhitespace).reverse).dropWhile Char.isWhitespace).reverse

/-- `strings.HasPrefix(line, "#")`: the line begins with `'#'`. -/
def isCommentLine : List Char → Bool
  | [] => false
  | c :: _ => c = '#'

/-- The range-file line filter of `GenerateIPs`: split the content on
newlines, trim each line, keep the non-blank lines not starting with
`'#'`. -/
def parseLines (content : String) : List String :=
  ((((splitOn '\n' content.data).map trimSpace).filter
    (fun l => !l.isEmpty && !isCommentLine l)).map fun l => String.mk l)

/-- The effective range table (lines 77–93 of the sampler): the defaults,
overridden by the user file only when it was read successfully
(`fileContent = some content` models a successful `os.ReadFile`; `none`
models an empty path or a read error) and yielded at least one usable
line. -/
def effectiveRanges (fileContent : Option String) : List String :=
  match fileContent with
  | none => CloudflareIPv4Ranges
  | some content =>
    let fileRanges := parseLines content
    if fileRanges.isEmpty then CloudflareIPv4Ranges else fileRanges

/-- One dotted-decimal octet as `net.ParseIP` accepts it: 1–3 digits,
value ≤ 255, no leading zero. -/
def parseOctet : List Char → Option ℕ
  | [] => none
  | c :: cs =>
    if c = '0' ∧ cs ≠ [] then none
    else
      let digits := c :: cs
      if digits.all Char.isDigit ∧ digits.length ≤ 3 then
        let n := digits.foldl (fun acc d => acc * 10 + (d.toNat - 48)) 0
        if n ≤ 255 then some n else none
      else none

/-- A dotted-quad IPv4 address as a 32-bit value. -/
def parseIPv4 (s : List Char) : Option ℕ :=
  match (splitOn '.' s).map parseOctet with
  | [some a, some b, some c, some d] => some (((a * 256 + b) * 256 + c) * 256 + d)
  | _ => none

/-- The prefix-length part of a CIDR: decimal, ≤ 32. -/
def parseMaskLen (ds : List Char) : Option ℕ :=
  if ds ≠ [] ∧ ds.all Char.isDigit ∧ ds.length ≤ 3 then
    let n := ds.foldl (fun acc d => acc * 10 + (d.toNat - 48)) 0
    if n ≤ 32 then some n else none
  else none

/-- `net.ParseCIDR` for IPv4 `"a.b.c.d/len"`.  Returns the network base
(`ipNet.IP`, i.e. the address masked to the prefix) and the prefix length
(`ones`); `none` models a parse error. -/
def parseCIDR (s : List Char) : Option (ℕ × ℕ) :=
  match splitOn '/' s with
  | [ipPart, maskPart] =>
    match parseIPv4 ipPart, parseMaskLen maskPart with
    | some ip, some ones =>
      some (ip / 2 ^ (32 - ones) * 2 ^ (32 - ones), ones)
    | _, _ => none
  | _ => none

/-- `randIPFromCIDR`: on a parse error return `""` (modelled `none`); with
`hostBits ≤ 2` return the network address itself; otherwise add
`rand.Intn(maxHost) + 1` to the base, where `maxHost = 2^hostBits - 2` and
the draw is modelled as `draw % maxHost`. -/
def randIPFromCIDR (cidr : String) (draw : ℕ) : Option ℕ :=
  match parseCIDR cidr.data with
  | none => none
  | some (base, ones) =>
    let hostBits := 32 - ones
    if hostBits ≤ 2 then some base
    else
      let maxHost := 2 ^ hostBits - 2
      some (base + (draw % maxHost + 1))

/-- `net.IP.String()` of a 32-bit value: dotted decimal. -/
def ipToString (n : ℕ) : String :=
  toString (n / 2 ^ 24 % 256) ++ "." ++ toString (n / 2 ^ 16 % 256) ++ "."
    ++ toString (n / 2 ^ 8 % 256) ++ "." ++ toString (n % 256)

/-- The /24-equivalent subnet key: the first three octets of the rendered
address joined by dots (`parts[0]+"."+parts[1]+"."+parts[2]`). -/
def subnetKeyString (n : ℕ) : String :=
  toString (n / 2 ^ 24 % 256) ++ "." ++ toString (n / 2 ^ 16 % 256) ++ "."
    ++ toString (n / 2 ^ 8 % 256)

/-- `strings.Contains(r, "/")`. -/
def containsSlash (s : String) : Bool := s.data.contains '/'

/-- An accepted entry of unique-mode sampling, remembering whether it came
from a literal table entry or was drawn from a CIDR (the Go code appends the
rendered string in both cases). -/
inductive GenItem where
  | lit (entry : String) : GenItem
  | addr (ip : ℕ) : GenItem
deriving DecidableEq

/-- The key under which an item is recorded in the `seen` set: a literal is
keyed by itself, a drawn address by its subnet key. -/
def itemKey : GenItem → String
  | .lit s => s
  | .addr ip => subnetKeyString ip

/-- The string the Go code appends to `ips` for an item. -/
def renderItem : GenItem → String
  | .lit s => s
  | .addr ip => ipToString ip

/-- The subnet key of a CIDR-drawn item (and `none` for a literal). -/
def addrSubnetKey : GenItem → Option String
  | .lit _ => none
  | .addr ip => some (subnetKeyString ip)

/-- The entry of a literal item (and `none` for a drawn address). -/
def litEntry : GenItem → Option String
  | .lit s => some s
  | .addr _ => none

/-- The unique-mode sampling loop: while fewer than `maxScan` accepted and
attempts remain (`fuel` = remaining attempts out of `maxScan * 5`), pick a
random range; a literal entry is accepted if not seen, keyed by itself; a
CIDR entry is sampled with `randIPFromCIDR` and accepted if its subnet key
is unseen.  `ri` indexes the random oracle; `attempts` counts iterations.
Go panics on an empty table (`rand.Intn(0)`); the `getD ""` default is never
reached because the effective table is never empty. -/
def genUniqueLoop (ranges : List String) (rnd : ℕ → ℕ) (maxScan : ℕ) :
    ℕ → ℕ → List String → List GenItem → ℕ → List GenItem × ℕ
  | 0, _, _, acc, attempts => (acc, attempts)
  | fuel + 1, ri, seen, acc, attempts =>
    if maxScan ≤ acc.length then (acc, attempts)
    else
      let r := ranges.getD (rnd ri % ranges.length) ""
      if containsSlash r then
        match randIPFromCIDR r (rnd (ri + 1)) with
        | none => genUniqueLoop ranges rnd maxScan fuel (ri + 2) seen acc (attempts + 1)
        | some ip =>
          let key := subnetKeyString ip
          if key ∈ seen then
            genUniqueLoop ranges rnd maxScan fuel (ri + 2) seen acc (attempts + 1)
          else
            genUniqueLoop ranges rnd maxScan fuel (ri + 2) (key :: seen)
              (acc ++ [GenItem.addr ip]) (attempts + 1)
      else
        if r ∈ seen then
          genUniqueLoop ranges rnd maxScan fuel (ri + 1) seen acc (attempts + 1)
        else
          genUniqueLoop ranges rnd maxScan fuel (ri + 1) (r :: seen)
            (acc ++ [GenItem.lit r]) (attempts + 1)

/-- Unique-mode sampling: run the loop with `maxAttempts = maxScan * 5`
fuel, empty `seen` set and accumulator.  Returns the accepted items and the
number of attempts performed. -/
def genUnique (ranges : List String) (rnd : ℕ → ℕ) (maxScan : ℕ) :
    List GenItem × ℕ :=
  genUniqueLoop ranges rnd maxScan (maxScan * 5) 0 [] [] 0

/-- Bulk-mode draws for one table entry: a literal is appended once; a CIDR
entry gets `perRange` draws, dropping failed parses (`""` results).  Draw
`j` of entry `i` reads the oracle at `base + j`. -/
def bulkRangeDraws (rnd : ℕ → ℕ) (perRange : ℕ) (base : ℕ) (r : String) :
    List String :=
  if containsSlash r then
    (List.range perRange).filterMap
      (fun j => (randIPFromCIDR r (rnd (base + j))).map ipToString)
  else [r]

/-- The concatenated bulk pool: `perRange = maxScan / len(ranges) + 3` draws
per CIDR entry, literals once each, in table order. -/
def genBulkPool (ranges : List String) (rnd : ℕ → ℕ) (maxScan : ℕ) :
    List String :=
  let perRange := maxScan / ranges.length + 3
  ranges.enum.flatMap (fun p => bulkRangeDraws rnd perRange (p.1 * perRange) p.2)

/-- `ips[i], ips[j] = ips[j], ips[i]`. -/
def listSwap (l : List String) (i j : ℕ) : List String :=
  match l.get? i, l.get? j with
  | some a, some b => (l.set i b).set j a
  | _, _ => l

/-- The Fisher–Yates loop of `rand.Shuffle`: for `i` from `n-1` down to `1`,
swap position `i` with a random position `j ≤ i`
(`j = rand.Intn(i+1)`, modelled `rnd (i+1) % (i+2)` — the argument indexes
the oracle). -/
def shuffleAux (rnd : ℕ → ℕ) : ℕ → List String → List String
  | 0, l => l
  | i + 1, l => shuffleAux rnd i (listSwap l (i + 1) (rnd (i + 1) % (i + 2)))

/-- `rand.Shuffle(len(ips), ...)`. -/
def shuffle (rnd : ℕ → ℕ) (l : List String) : List String :=
  shuffleAux rnd (l.length - 1) l

/-- Bulk-mode sampling: build the pool, shuffle it, truncate to `maxScan`
when longer. -/
def genBulk (ranges : List String) (rnd : ℕ → ℕ) (maxScan : ℕ) : List String :=
  let shuffled := shuffle rnd (genBulkPool ranges rnd maxScan)
  if maxScan < shuffled.length then shuffled.take maxScan else shuffled

/-- `GenerateIPs(maxScan, unique, ipFile)`.  `fileContent` models the
`os.ReadFile(ipFile)` outcome (`none`: empty path or read error); `rnd` is
the random oracle. -/
def GenerateIPs (maxScan : ℕ) (unique : Bool) (fileContent : Option String)
    (rnd : ℕ → ℕ) : List String :=
  let ranges := effectiveRanges fileContent
  if unique then ((genUnique ranges rnd maxScan).1).map renderItem
  else genBulk ranges rnd maxScan

end CFST

/-! ## Claim C1: the scoring function -/

/-- **C1.** `CalcScore` is a pure function of (downloadSpeed, tcpLatency,
popLabel) equal to `0.8*speedScore + 0.2*latencyScore + bonus` with
`speedScore = 100` for speed ≥ 40 and `(s/40)*100` otherwise,
`latencyScore = max(0, 100-(l-30)*0.5)` (hence `0` for every l ≥ 230),
`bonus = 5` iff the label is resolved, non-error and non-empty; and
`score(40, 30, "LAX") = 105`, `score(20, 50, "LAX") = 63`. -/
theorem C1_calcScore_formula :
    (∀ s l c, CFST.CalcScore s l c =
      0.8 * CFST.specSpeedScore s + 0.2 * CFST.specLatencyScore l + CFST.specBonus c)
    ∧ (∀ s, 40 ≤ s → CFST.specSpeedScore s = 100)
    ∧ (∀ s, s < 40 → CFST.specSpeedScore s = s / 40 * 100)
    ∧ (∀ l, 230 ≤ l → CFST.specLatencyScore l = 0)
    ∧ (∀ c, (c ≠ "UNK" ∧ c ≠ "ERR" ∧ c ≠ "") → CFST.specBonus c = 5)
    ∧ (∀ c, ¬(c ≠ "UNK" ∧ c ≠ "ERR" ∧ c ≠ "") → CFST.specBonus c = 0)
    ∧ CFST.CalcScore 40 30 "LAX" = 105
    ∧ CFST.CalcScore 20 50 "LAX" = 63 := by
  have hb : (("LAX" : String) ≠ "UNK" ∧ ("LAX" : String) ≠ "ERR" ∧ ("LAX" : String) ≠ "") := by
    refine ⟨?_, ?_, ?_⟩ <;> decide
  refine ⟨?_, ?_, ?_, ?_, ?_, ?_, ?_, ?_⟩
  · intro s l c
    simp only [CFST.CalcScore, CFST.specSpeedScore, CFST.specLatencyScore, CFST.specBonus]
    rcases lt_or_le s 40 with hs | hs <;>
      rcases lt_or_le (100 - (l - 30) * 0.5) 0 with hl | hl
    · rw [if_pos hs, if_neg (not_le.mpr hs), if_pos hl, max_eq_left hl.le]; ring
    · rw [if_pos hs, if_neg (not_le.mpr hs), if_neg (not_lt.mpr hl), max_eq_right hl]; ring
    · rw [if_neg (not_lt.mpr hs), if_pos hs, if_pos hl, max_eq_left hl.le]; ring
    · rw [if_neg (not_lt.mpr hs), if_pos hs, if_neg (not_lt.mpr hl), max_eq_right hl]; ring
  · intro s hs; unfold CFST.specSpeedScore; rw [if_pos hs]
  · intro s hs; unfold CFST.specSpeedScore; rw [if_neg (not_le.mpr hs)]
  · intro l hl
    unfold CFST.specLatencyScore
    have h : 100 - (l - 30) * 0.5 ≤ 0 := by nlinarith
    exact max_eq_left h
  · intro c hc; unfold CFST.specBonus; rw [if_pos hc]
  · intro c hc; unfold CFST.specBonus; rw [if_neg hc]
  · have h1 : ¬ ((40 : ℚ) < 40) := by norm_num
    have h2 : ¬ ((100 : ℚ) - (30 - 30) * 0.5 < 0) := by norm_num
    simp only [CFST.CalcScore]
    rw [if_neg h1, if_neg h2, if_pos hb]
    norm_num
  · have h1 : ((20 : ℚ) < 40) := by norm_num
    have h2 : ¬ ((100 : ℚ) - (50 - 30) * 0.5 < 0) := by norm_num
    simp only [CFST.CalcScore]
    rw [if_pos h1, if_neg h2, if_pos hb]
    norm_num

/-- Witness for C1 at concrete inputs. -/
theorem C1_calcScore_formula_witness :
    CFST.CalcScore 40 30 "LAX" =
      0.8 * CFST.specSpeedScore 40 + 0.2 * CFST.specLatencyScore 30 + CFST.specBonus "LAX"
    ∧ CFST.specSpeedScore 40 = 100
    ∧ CFST.specLatencyScore 230 = 0
    ∧ CFST.specBonus "LAX" = 5 :=
  ⟨C1_calcScore_formula.1 40 30 "LAX",
   C1_calcScore_formula.2.1 40 (by norm_num),
   C1_calcScore_formula.2.2.2.1 230 (by norm_num),
   C1_calcScore_formula.2.2.2.2.1 "LAX" (by decide)⟩

/-! ## Claim C4: BlockGate classification -/

/-- **C4.** `CheckBlocked` classifies a transport-level failure as blocked,
any status ≥ 400 (including 400, 403, 404, 429) as blocked, and every
status in 200–399 as not blocked. -/
theorem C4_checkBlocked_classification :
    (∀ h, CFST.CheckBlocked (.ok h) .transportFailure = true)
    ∧ (∀ h s, 400 ≤ s → CFST.CheckBlocked (.ok h) (.response s) = true)
    ∧ (∀ h, CFST.CheckBlocked (.ok h) (.response 400) = true
        ∧ CFST.CheckBlocked (.ok h) (.response 403) = true
        ∧ CFST.CheckBlocked (.ok h) (.response 404) = true
        ∧ CFST.CheckBlocked (.ok h) (.response 429) = true)
    ∧ (∀ h s, 200 ≤ s → s ≤ 399 → CFST.CheckBlocked (.ok h) (.response s) = false) := by
  refine ⟨fun h => rfl, ?_, fun h => ⟨rfl, rfl, rfl, rfl⟩, ?_⟩
  · intro h s hs
    simp only [CFST.CheckBlocked]
    by_cases h1 : s = 429 ∨ s = 403 ∨ s = 400 ∨ s = 404 ∨ s = 403
    · rw [if_pos h1]
    · rw [if_neg h1, if_pos hs]
  · intro h s hlo hhi
    have h1 : ¬ (s = 429 ∨ s = 403 ∨ s = 400 ∨ s = 404 ∨ s = 403) := by omega
    have h2 : ¬ (400 ≤ s) := by omega
    simp only [CFST.CheckBlocked]
    rw [if_neg h1, if_neg h2]

/-- Witness for C4 at concrete status codes. -/
theorem C4_checkBlocked_classification_witness :
    CFST.CheckBlocked (.ok "speed.cloudflare.com") .transportFailure = true
    ∧ CFST.CheckBlocked (.ok "speed.cloudflare.com") (.response 500) = true
    ∧ CFST.CheckBlocked (.ok "speed.cloudflare.com") (.response 429) = true
    ∧ CFST.CheckBlocked (.ok "speed.cloudflare.com") (.response 200) = false :=
  ⟨C4_checkBlocked_classification.1 "speed.cloudflare.com",
   C4_checkBlocked_classification.2.1 "speed.cloudflare.com" 500 (by omega),
   (C4_checkBlocked_classification.2.2.1 "speed.cloudflare.com").2.2.2,
   C4_checkBlocked_classification.2.2.2 "speed.cloudflare.com" 200 (by omega) (by omega)⟩

/-! ## Claim C8: throughput division safety -/

/-- **C8.** The divisor of `DownloadTest` is the elapsed time floored at
0.1 s, hence never zero, and zero accumulated bytes yield speed `0`. -/
theorem C8_downloadTest_division_safe :
    (∀ e : ℚ, 0.1 ≤ CFST.realTimeFloored e ∧ CFST.realTimeFloored e ≠ 0)
    ∧ (∀ e : ℚ, CFST.downloadTestSpeed 0 e = 0) := by
  constructor
  · intro e
    unfold CFST.realTimeFloored
    rcases lt_or_le e 0.1 with h | h
    · rw [if_pos h]; norm_num
    · rw [if_neg (not_lt.mpr h)]
      constructor
      · exact h
      · intro h0; rw [h0] at h; norm_num at h
  · intro e
    unfold CFST.downloadTestSpeed
    norm_num

/-! ## Claim C9: the URL-parse step of DownloadTest can abort -/

/-- **C9 (code bug).** `CheckBlocked` degrades a URL-parse failure to the
classification `false`, but `DownloadTest` discards the parse error and
calls `Hostname()` on the resulting `nil` pointer: on an unparseable test
URL it panics (modelled by `none`) instead of returning a numeric speed. -/
theorem C9_downloadTest_url_parse_panic :
    CFST.CheckBlocked .failed .transportFailure = false
    ∧ CFST.CheckBlocked .failed (.response 200) = false
    ∧ (∀ h, CFST.downloadTestHost (.ok h) = some h)
    ∧ CFST.downloadTestHost .failed = none :=
  ⟨rfl, rfl, fun _ => rfl, rfl⟩

/-! ## Helper lemmas about the orchestrator loop -/

namespace CFST

theorem bool_not_true {b : Bool} (h : ¬ b = true) : b = false := by
  cases b
  · rfl
  · exact absurd rfl h

theorem countFast_nil (cfg : Config) : countFast cfg [] = 0 := rfl

theorem countFast_cons (cfg : Config) (c : Cand) (l : List Cand) :
    countFast cfg (c :: l) = (if isFast cfg c then 1 else 0) + countFast cfg l := by
  by_cases h : isFast cfg c <;>
    simp [countFast, List.filter_cons, h, Nat.add_comm]

theorem resultsOf_nil (cfg : Config) : resultsOf cfg [] = [] := by
  by_cases h : cfg.skip429 <;> simp [resultsOf, h]

theorem resultsOf_cons_blocked (cfg : Config) (c : Cand) (l : List Cand)
    (hb : c.blocked = true) :
    resultsOf cfg (c :: l)
      = (if cfg.skip429 then ([] : List NodeRes) else [mkBlockedRes c])
          ++ resultsOf cfg l := by
  by_cases h : cfg.skip429 <;> simp [resultsOf, h, List.filter_cons, hb]

theorem resultsOf_cons_unblocked (cfg : Config) (c : Cand) (l : List Cand)
    (hb : c.blocked = false) :
    resultsOf cfg (c :: l) = mkTestedRes c :: resultsOf cfg l := by
  by_cases h : cfg.skip429 <;> simp [resultsOf, h, List.filter_cons, hb]

theorem runLoop_cons_skip (cfg : Config) (c : Cand) (rest : List Cand)
    (res : List NodeRes) (fc fec con : ℕ)
    (hb : c.blocked = true) (hs : cfg.skip429 = true) :
    runLoop cfg (c :: rest) ⟨res, fc, fec, con⟩
      = runLoop cfg rest ⟨res, fc, fec, con + 1⟩ := by
  simp [runLoop, hb, hs]

theorem runLoop_cons_blocked_stop (cfg : Config) (c : Cand) (rest : List Cand)
    (res : List NodeRes) (fc fec con : ℕ)
    (hb : c.blocked = true) (hs : cfg.skip429 = false)
    (hq : cfg.downloadNum ≤ (res ++ [mkBlockedRes c]).length) :
    runLoop cfg (c :: rest) ⟨res, fc, fec, con⟩
      = ⟨res ++ [mkBlockedRes c], fc, fec, con + 1⟩ := by
  have hq2 : cfg.downloadNum ≤ res.length + 1 := by simpa using hq
  simp [runLoop, hb, hs, hq2]

theorem runLoop_cons_blocked_go (cfg : Config) (c : Cand) (rest : List Cand)
    (res : List NodeRes) (fc fec con : ℕ)
    (hb : c.blocked = true) (hs : cfg.skip429 = false)
    (hq : ¬ cfg.downloadNum ≤ (res ++ [mkBlockedRes c]).length) :
    runLoop cfg (c :: rest) ⟨res, fc, fec, con⟩
      = runLoop cfg rest ⟨res ++ [mkBlockedRes c], fc, fec, con + 1⟩ := by
  have hq2 : ¬ cfg.downloadNum ≤ res.length + 1 := by simpa using hq
  simp [runLoop, hb, hs, hq2]

theorem runLoop_cons_fast_exit (cfg : Config) (c : Cand) (rest : List Cand)
    (res : List NodeRes) (fc fec con : ℕ)
    (hb : c.blocked = false) (hf : cfg.stopThreshold ≤ c.measuredSpeed)
    (h5 : 5 ≤ fc + 1) :
    runLoop cfg (c :: rest) ⟨res, fc, fec, con⟩
      = ⟨res ++ [mkTestedRes c], fc + 1, fec + 1, con + 1⟩ := by
  simp [runLoop, hb, hf, h5]

theorem runLoop_cons_fast_stop (cfg : Config) (c : Cand) (rest : List Cand)
    (res : List NodeRes) (fc fec con : ℕ)
    (hb : c.blocked = false) (hf : cfg.stopThreshold ≤ c.measuredSpeed)
    (h5 : ¬ 5 ≤ fc + 1)
    (hq : cfg.downloadNum ≤ (res ++ [mkTestedRes c]).length) :
    runLoop cfg (c :: rest) ⟨res, fc, fec, con⟩
      = ⟨res ++ [mkTestedRes c], fc + 1, fec, con + 1⟩ := by
  have hq2 : cfg.downloadNum ≤ res.length + 1 := by simpa using hq
  simp [runLoop, hb, hf, h5, hq2]

theorem runLoop_cons_fast_go (cfg : Config) (c : Cand) (rest : List Cand)
    (res : List NodeRes) (fc fec con : ℕ)
    (hb : c.blocked = false) (hf : cfg.stopThreshold ≤ c.measuredSpeed)
    (h5 : ¬ 5 ≤ fc + 1)
    (hq : ¬ cfg.downloadNum ≤ (res ++ [mkTestedRes c]).length) :
    runLoop cfg (c :: rest) ⟨res, fc, fec, con⟩
      = runLoop cfg rest ⟨res ++ [mkTestedRes c], fc + 1, fec, con + 1⟩ := by
  have hq2 : ¬ cfg.downloadNum ≤ res.length + 1 := by simpa using hq
  simp [runLoop, hb, hf, h5, hq2]

theorem runLoop_cons_slow_stop (cfg : Config) (c : Cand) (rest : List Cand)
    (res : List NodeRes) (fc fec con : ℕ)
    (hb : c.blocked = false) (hf : ¬ cfg.stopThreshold ≤ c.measuredSpeed)
    (hq : cfg.downloadNum ≤ (res ++ [mkTestedRes c]).length) :
    runLoop cfg (c :: rest) ⟨res, fc, fec, con⟩
      = ⟨res ++ [mkTestedRes c], fc, fec, con + 1⟩ := by
  have hq2 : cfg.downloadNum ≤ res.length + 1 := by simpa using hq
  simp [runLoop, hb, hf, hq2]

theorem runLoop_cons_slow_go (cfg : Config) (c : Cand) (rest : List Cand)
    (res : List NodeRes) (fc fec con : ℕ)
    (hb : c.blocked = false) (hf : ¬ cfg.stopThreshold ≤ c.measuredSpeed)
    (hq : ¬ cfg.downloadNum ≤ (res ++ [mkTestedRes c]).length) :
    runLoop cfg (c :: rest) ⟨res, fc, fec, con⟩
      = runLoop cfg rest ⟨res ++ [mkTestedRes c], fc, fec, con + 1⟩ := by
  have hq2 : ¬ cfg.downloadNum ≤ res.length + 1 := by simpa using hq
  simp [runLoop, hb, hf, hq2]

end CFST

namespace CFST

theorem runLoop_spec (cfg : Config) (l : List Cand) :
    ∀ (res : List NodeRes) (fc fec con : ℕ), fc < 5 →
    ∃ k, k ≤ l.length
      ∧ (runLoop cfg l ⟨res, fc, fec, con⟩).consumed = con + k
      ∧ (runLoop cfg l ⟨res, fc, fec, con⟩).results = res ++ resultsOf cfg (l.take k)
      ∧ (runLoop cfg l ⟨res, fc, fec, con⟩).fastCount = fc + countFast cfg (l.take k)
      ∧ (runLoop cfg l ⟨res, fc, fec, con⟩).fastCount ≤ 5
      ∧ (runLoop cfg l ⟨res, fc, fec, con⟩).fastExitCalls
          = fec + (if (runLoop cfg l ⟨res, fc, fec, con⟩).fastCount = 5 then 1 else 0)
      ∧ ((runLoop cfg l ⟨res, fc, fec, con⟩).fastCount = 5 →
          0 < k ∧ fc + countFast cfg (l.take (k - 1)) = 4) := by
  induction l with
  | nil =>
    intro res fc fec con h
    refine ⟨0, Nat.le_refl 0, rfl, ?_, ?_, by show fc ≤ 5; omega, ?_, ?_⟩
    · show res = res ++ resultsOf cfg ([].take 0)
      rw [List.take_nil, resultsOf_nil, List.append_nil]
    · show fc = fc + countFast cfg ([].take 0)
      rw [List.take_nil, countFast_nil]
      omega
    · show fec = fec + if fc = 5 then 1 else 0
      rw [if_neg (by omega)]
      omega
    · intro h5
      have h5b : fc = 5 := h5
      omega
  | cons c rest ih =>
    intro res fc fec con h
    by_cases hb : c.blocked
    · by_cases hs : cfg.skip429
      · -- blocked, silently discarded (no result, no quota check)
        rw [runLoop_cons_skip cfg c rest res fc fec con hb hs]
        obtain ⟨k, hk, h1, h2, h3, h4, h5c, h6⟩ := ih res fc fec (con + 1) h
        have hcf : isFast cfg c = false := by simp [isFast, hb]
        refine ⟨k + 1, ?_, ?_, ?_, ?_, h4, h5c, ?_⟩
        · simp only [List.length_cons]; omega
        · rw [h1]; omega
        · rw [h2, List.take_succ_cons, resultsOf_cons_blocked cfg c (rest.take k) hb,
            if_pos hs, List.nil_append]
        · rw [h3, List.take_succ_cons, countFast_cons, hcf]
          simp
        · intro hfc5
          obtain ⟨hkpos, hcount⟩ := h6 hfc5
          refine ⟨Nat.succ_pos k, ?_⟩
          obtain ⟨k2, rfl⟩ : ∃ k2, k = k2 + 1 := ⟨k - 1, by omega⟩
          rw [Nat.add_sub_cancel, List.take_succ_cons, countFast_cons, hcf]
          simp only [Nat.add_sub_cancel] at hcount
          simpa using hcount
      · -- blocked, recorded with the "429" sentinel
        have hs2 : cfg.skip429 = false := bool_not_true hs
        have hcf : isFast cfg c = false := by simp [isFast, hb]
        by_cases hq : cfg.downloadNum ≤ (res ++ [mkBlockedRes c]).length
        · rw [runLoop_cons_blocked_stop cfg c rest res fc fec con hb hs2 hq]
          refine ⟨1, ?_, rfl, ?_, ?_, by show fc ≤ 5; omega, ?_, ?_⟩
          · simp
          · show res ++ [mkBlockedRes c] = res ++ resultsOf cfg ((c :: rest).take 1)
            rw [List.take_succ_cons, List.take_zero,
              resultsOf_cons_blocked cfg c [] hb, resultsOf_nil, hs2]
            simp
          · show fc = fc + countFast cfg ((c :: rest).take 1)
            rw [List.take_succ_cons, List.take_zero, countFast_cons, hcf, countFast_nil]
            simp
          · show fec = fec + if fc = 5 then 1 else 0
            rw [if_neg (by omega)]
            omega
          · intro h5
            have h5b : fc = 5 := h5
            omega
        · rw [runLoop_cons_blocked_go cfg c rest res fc fec con hb hs2 hq]
          obtain ⟨k, hk, h1, h2, h3, h4, h5c, h6⟩ :=
            ih (res ++ [mkBlockedRes c]) fc fec (con + 1) h
          refine ⟨k + 1, ?_, ?_, ?_, ?_, h4, h5c, ?_⟩
          · simp only [List.length_cons]; omega
          · rw [h1]; omega
          · rw [h2, List.take_succ_cons, resultsOf_cons_blocked cfg c (rest.take k) hb,
              hs2, List.append_assoc]
            simp
          · rw [h3, List.take_succ_cons, countFast_cons, hcf]
            simp
          · intro hfc5
            obtain ⟨hkpos, hcount⟩ := h6 hfc5
            refine ⟨Nat.succ_pos k, ?_⟩
            obtain ⟨k2, rfl⟩ : ∃ k2, k = k2 + 1 := ⟨k - 1, by omega⟩
            rw [Nat.add_sub_cancel, List.take_succ_cons, countFast_cons, hcf]
            simp only [Nat.add_sub_cancel] at hcount
            simpa using hcount
    · -- not blocked: tested and scored
      have hb2 : c.blocked = false := bool_not_true hb
      by_cases hf : cfg.stopThreshold ≤ c.measuredSpeed
      · have hcf : isFast cfg c = true := by simp [isFast, hb2, hf]
        by_cases h5 : 5 ≤ fc + 1
        · -- fifth fast result: fastExitHost fires, loop breaks
          rw [runLoop_cons_fast_exit cfg c rest res fc fec con hb2 hf h5]
          refine ⟨1, ?_, rfl, ?_, ?_, by show fc + 1 ≤ 5; omega, ?_, ?_⟩
          · simp
          · show res ++ [mkTestedRes c] = res ++ resultsOf cfg ((c :: rest).take 1)
            rw [List.take_succ_cons, List.take_zero,
              resultsOf_cons_unblocked cfg c [] hb2, resultsOf_nil]
          · show fc + 1 = fc + countFast cfg ((c :: rest).take 1)
            rw [List.take_succ_cons, List.take_zero, countFast_cons, hcf, countFast_nil]
            simp
          · show fec + 1 = fec + if fc + 1 = 5 then 1 else 0
            rw [if_pos (by omega)]
          · intro _
            refine ⟨Nat.one_pos, ?_⟩
            show fc + countFast cfg ((c :: rest).take 0) = 4
            rw [List.take_zero, countFast_nil]
            omega
        · by_cases hq : cfg.downloadNum ≤ (res ++ [mkTestedRes c]).length
          · rw [runLoop_cons_fast_stop cfg c rest res fc fec con hb2 hf h5 hq]
            refine ⟨1, ?_, rfl, ?_, ?_, by show fc + 1 ≤ 5; omega, ?_, ?_⟩
            · simp
            · show res ++ [mkTestedRes c] = res ++ resultsOf cfg ((c :: rest).take 1)
              rw [List.take_succ_cons, List.take_zero,
                resultsOf_cons_unblocked cfg c [] hb2, resultsOf_nil]
            · show fc + 1 = fc + countFast cfg ((c :: rest).take 1)
              rw [List.take_succ_cons, List.take_zero, countFast_cons, hcf, countFast_nil]
              simp
            · show fec = fec + if fc + 1 = 5 then 1 else 0
              rw [if_neg (by omega)]
              omega
            · intro h5f
              have h5b : fc + 1 = 5 := h5f
              omega
          · rw [runLoop_cons_fast_go cfg c rest res fc fec con hb2 hf h5 hq]
            obtain ⟨k, hk, h1, h2, h3, h4, h5c, h6⟩ :=
              ih (res ++ [mkTestedRes c]) (fc + 1) fec (con + 1) (by omega)
            refine ⟨k + 1, ?_, ?_, ?_, ?_, h4, h5c, ?_⟩
            · simp only [List.length_cons]; omega
            · rw [h1]; omega
            · rw [h2, List.take_succ_cons, resultsOf_cons_unblocked cfg c (rest.take k) hb2,
                List.append_assoc]
              simp
            · rw [h3, List.take_succ_cons, countFast_cons, hcf]
              simp only [if_true]
              omega
            · intro hfc5
              obtain ⟨hkpos, hcount⟩ := h6 hfc5
              refine ⟨Nat.succ_pos k, ?_⟩
              obtain ⟨k2, rfl⟩ : ∃ k2, k = k2 + 1 := ⟨k - 1, by omega⟩
              rw [Nat.add_sub_cancel, List.take_succ_cons, countFast_cons, hcf]
              simp only [Nat.add_sub_cancel] at hcount
              simp only [if_true]
              omega
      · have hcf : isFast cfg c = false := by simp [isFast, hf]
        by_cases hq : cfg.downloadNum ≤ (res ++ [mkTestedRes c]).length
        · rw [runLoop_cons_slow_stop cfg c rest res fc fec con hb2 hf hq]
          refine ⟨1, ?_, rfl, ?_, ?_, by show fc ≤ 5; omega, ?_, ?_⟩
          · simp
          · show res ++ [mkTestedRes c] = res ++ resultsOf cfg ((c :: rest).take 1)
            rw [List.take_succ_cons, List.take_zero,
              resultsOf_cons_unblocked cfg c [] hb2, resultsOf_nil]
          · show fc = fc + countFast cfg ((c :: rest).take 1)
            rw [List.take_succ_cons, List.take_zero, countFast_cons, hcf, countFast_nil]
            simp
          · show fec = fec + if fc = 5 then 1 else 0
            rw [if_neg (by omega)]
            omega
          · intro h5f
            have h5b : fc = 5 := h5f
            omega
        · rw [runLoop_cons_slow_go cfg c rest res fc fec con hb2 hf hq]
          obtain ⟨k, hk, h1, h2, h3, h4, h5c, h6⟩ :=
            ih (res ++ [mkTestedRes c]) fc fec (con + 1) h
          refine ⟨k + 1, ?_, ?_, ?_, ?_, h4, h5c, ?_⟩
          · simp only [List.length_cons]; omega
          · rw [h1]; omega
          · rw [h2, List.take_succ_cons, resultsOf_cons_unblocked cfg c (rest.take k) hb2,
              List.append_assoc]
            simp
          · rw [h3, List.take_succ_cons, countFast_cons, hcf]
            simp
          · intro hfc5
            obtain ⟨hkpos, hcount⟩ := h6 hfc5
            refine ⟨Nat.succ_pos k, ?_⟩
            obtain ⟨k2, rfl⟩ : ∃ k2, k = k2 + 1 := ⟨k - 1, by omega⟩
            rw [Nat.add_sub_cancel, List.take_succ_cons, countFast_cons, hcf]
            simp only [Nat.add_sub_cancel] at hcount
            simpa using hcount

end CFST

namespace CFST

theorem scoreDescLE_trans (a b c : NodeRes) (hab : scoreDescLE a b = true)
    (hbc : scoreDescLE b c = true) : scoreDescLE a c = true := by
  simp only [scoreDescLE, decide_eq_true_eq] at hab hbc ⊢
  exact le_trans hbc hab

theorem scoreDescLE_total (a b : NodeRes) : (scoreDescLE a b || scoreDescLE b a) = true := by
  simp only [scoreDescLE, Bool.or_eq_true, decide_eq_true_eq]
  exact le_total b.score a.score

theorem resultsOf_map_resKey (cfg : Config) (l : List Cand) :
    (resultsOf cfg l).map resKey
      = (if cfg.skip429 then l.filter (fun c => !c.blocked) else l).map candKey := by
  simp only [resultsOf, List.map_map]
  apply List.map_congr_left
  intro c _
  simp only [Function.comp]
  by_cases hcb : c.blocked <;> simp [resKey, candKey, mkBlockedRes, mkTestedRes, hcb]

theorem results_count_le (cfg : Config) (candidates : List Cand) (k : ℕ) (p : String × ℕ) :
    ((resultsOf cfg (candidates.take k)).map resKey).count p
      ≤ (candidates.map candKey).count p := by
  rw [resultsOf_map_resKey]
  have hsub : (if cfg.skip429 then (candidates.take k).filter (fun c => !c.blocked)
      else candidates.take k).Sublist candidates := by
    by_cases hs : cfg.skip429
    · rw [if_pos hs]
      exact (List.filter_sublist _).trans (List.take_sublist k candidates)
    · rw [if_neg hs]
      exact List.take_sublist k candidates
  exact (hsub.map candKey).count_le p

theorem perm_count_eq {α : Type} [BEq α] {l₁ l₂ : List α} (h : l₁.Perm l₂) (a : α) :
    l₁.count a = l₂.count a := h.countP_eq _

end CFST

/-! ## Claim C2: fast-exit behaviour of the orchestrator -/

/-- **C2.** In `RunDownloadTest`, once the cumulative count of unblocked
results with measured speed at or above `StopThreshold` reaches 5, the
fast-exit callback fires (at most once) and the loop stops immediately, even
under the result quota: the processed prefix never holds more than 5 fast
results, the callback fires exactly when it holds 5, and at the moment it
fires the previously processed prefix held 4. -/
theorem C2_fast_exit_behaviour (candidates : List CFST.Cand) (cfg : CFST.Config) :
    (CFST.runLoop cfg candidates CFST.initRDState).fastExitCalls ≤ 1
    ∧ CFST.countFast cfg
        (candidates.take (CFST.runLoop cfg candidates CFST.initRDState).consumed) ≤ 5
    ∧ ((CFST.runLoop cfg candidates CFST.initRDState).fastExitCalls = 1
        ↔ CFST.countFast cfg
            (candidates.take (CFST.runLoop cfg candidates CFST.initRDState).consumed) = 5)
    ∧ ((CFST.runLoop cfg candidates CFST.initRDState).fastExitCalls = 1 →
        CFST.countFast cfg
          (candidates.take
            ((CFST.runLoop cfg candidates CFST.initRDState).consumed - 1)) = 4) := by
  have hinit : CFST.initRDState = (⟨[], 0, 0, 0⟩ : CFST.RDState) := rfl
  rw [hinit]
  obtain ⟨k, hk, h1, h2, h3, h4, h5c, h6⟩ :=
    CFST.runLoop_spec cfg candidates [] 0 0 0 (by omega)
  have hcon : (CFST.runLoop cfg candidates ⟨[], 0, 0, 0⟩).consumed = k := by omega
  rw [hcon]
  refine ⟨?_, by omega, ?_, ?_⟩
  · rw [h5c]
    split_ifs <;> omega
  · rw [h5c, h3]
    split_ifs with hA <;> omega
  · intro hc
    by_cases hA : (CFST.runLoop cfg candidates ⟨[], 0, 0, 0⟩).fastCount = 5
    · obtain ⟨hkpos, hcount⟩ := h6 hA
      omega
    · rw [h5c, if_neg hA] at hc
      omega

/-- Witness for C2: five fast candidates trigger exactly one fast-exit call,
and the theorem instantiated at that run. -/
theorem C2_fast_exit_behaviour_witness :
    (CFST.runLoop CFST.fastCfg
      [CFST.fastCand, CFST.fastCand, CFST.fastCand, CFST.fastCand, CFST.fastCand]
      CFST.initRDState).fastExitCalls = 1
    ∧ CFST.countFast CFST.fastCfg
        ([CFST.fastCand, CFST.fastCand, CFST.fastCand, CFST.fastCand, CFST.fastCand].take
          ((CFST.runLoop CFST.fastCfg
            [CFST.fastCand, CFST.fastCand, CFST.fastCand, CFST.fastCand, CFST.fastCand]
            CFST.initRDState).consumed - 1)) = 4 := by
  have h1 : (CFST.runLoop CFST.fastCfg
      [CFST.fastCand, CFST.fastCand, CFST.fastCand, CFST.fastCand, CFST.fastCand]
      CFST.initRDState).fastExitCalls = 1 := by
    norm_num [CFST.runLoop, CFST.initRDState, CFST.fastCfg, CFST.fastCand]
  exact ⟨h1,
    (C2_fast_exit_behaviour
      [CFST.fastCand, CFST.fastCand, CFST.fastCand, CFST.fastCand, CFST.fastCand]
      CFST.fastCfg).2.2.2 h1⟩

/-! ## Claim C3: the blocked-candidate discard/record policy -/

/-- **C3.** With the discard policy (`Skip429 = true`) blocked candidates
never appear in the final result list (every result stems from an unblocked
candidate) and never consume a quota slot (the result count equals the count
of processed unblocked candidates).  With the policy off, every processed
candidate — blocked or not — consumes a slot, and each processed blocked
candidate appears as its sentinel entry: speed `0`, colo `"429"`, score
`0`. -/
theorem C3_blocked_policy (candidates : List CFST.Cand) (cfg : CFST.Config) :
    (∀ c, (CFST.mkBlockedRes c).downloadSpeed = 0 ∧ (CFST.mkBlockedRes c).colo = "429"
        ∧ (CFST.mkBlockedRes c).score = 0)
    ∧ (cfg.skip429 = true →
        (∀ r ∈ (CFST.RunDownloadTest candidates cfg).results,
          ∃ c, c ∈ candidates ∧ c.blocked = false ∧ r = CFST.mkTestedRes c)
        ∧ (CFST.RunDownloadTest candidates cfg).results.length
            = ((candidates.take
                (CFST.runLoop cfg candidates CFST.initRDState).consumed).filter
                  (fun c => !c.blocked)).length)
    ∧ (cfg.skip429 = false →
        (CFST.RunDownloadTest candidates cfg).results.length
          = (CFST.runLoop cfg candidates CFST.initRDState).consumed
        ∧ (∀ c ∈ candidates.take (CFST.runLoop cfg candidates CFST.initRDState).consumed,
            c.blocked = true →
              CFST.mkBlockedRes c ∈ (CFST.RunDownloadTest candidates cfg).results)) := by
  obtain ⟨k, hk, h1, h2, h3, h4, h5c, h6⟩ :=
    CFST.runLoop_spec cfg candidates [] 0 0 0 (by omega)
  have hinit : CFST.initRDState = (⟨[], 0, 0, 0⟩ : CFST.RDState) := rfl
  have hres : (CFST.runLoop cfg candidates CFST.initRDState).results
      = CFST.resultsOf cfg (candidates.take k) := by
    rw [hinit, h2, List.nil_append]
  have hcon : (CFST.runLoop cfg candidates CFST.initRDState).consumed = k := by
    rw [hinit]; omega
  have hfinal : (CFST.RunDownloadTest candidates cfg).results
      = ((CFST.runLoop cfg candidates CFST.initRDState).results).mergeSort
          CFST.scoreDescLE := rfl
  have hperm : ((CFST.RunDownloadTest candidates cfg).results).Perm
      (CFST.resultsOf cfg (candidates.take k)) := by
    rw [hfinal, hres]
    exact List.mergeSort_perm _ _
  refine ⟨fun c => ⟨rfl, rfl, rfl⟩, ?_, ?_⟩
  · intro hskip
    constructor
    · intro r hr
      have hr2 : r ∈ CFST.resultsOf cfg (candidates.take k) := hperm.mem_iff.mp hr
      rw [CFST.resultsOf, if_pos hskip] at hr2
      obtain ⟨c, hc, hceq⟩ := List.mem_map.mp hr2
      obtain ⟨hctake, hcblocked⟩ := List.mem_filter.mp hc
      have hcb : c.blocked = false := by simpa using hcblocked
      refine ⟨c, List.take_subset k candidates hctake, hcb, ?_⟩
      rw [← hceq, hcb]
      simp
    · rw [hcon, hperm.length_eq, CFST.resultsOf, if_pos hskip, List.length_map]
  · intro hskip
    have hskip2 : ¬ (cfg.skip429 = true) := by simp [hskip]
    constructor
    · rw [hcon, hperm.length_eq, CFST.resultsOf, if_neg hskip2, List.length_map,
        List.length_take, min_eq_left hk]
    · intro c hctake hcb
      rw [hcon] at hctake
      apply hperm.mem_iff.mpr
      rw [CFST.resultsOf, if_neg hskip2]
      refine List.mem_map.mpr ⟨c, hctake, ?_⟩
      rw [hcb]
      simp

/-- Witness for C3: a blocked and an unblocked candidate under the discard
policy; the theorem instantiated there. -/
theorem C3_blocked_policy_witness :
    (∀ r ∈ (CFST.RunDownloadTest [CFST.blkCand, CFST.okCand] CFST.polCfg).results,
      ∃ c, c ∈ [CFST.blkCand, CFST.okCand] ∧ c.blocked = false ∧ r = CFST.mkTestedRes c)
    ∧ (CFST.RunDownloadTest [CFST.blkCand, CFST.okCand] CFST.polCfg).results.length
        = (([CFST.blkCand, CFST.okCand].take
            (CFST.runLoop CFST.polCfg [CFST.blkCand, CFST.okCand]
              CFST.initRDState).consumed).filter
              (fun c => !c.blocked)).length :=
  (C3_blocked_policy [CFST.blkCand, CFST.okCand] CFST.polCfg).2.1 rfl

/-! ## Claim C5: order and duplicates of the final result list -/

/-- **C5 (counterexample).** `RunDownloadTest` performs no deduplication:
when the same address/port is sampled twice (bulk-mode sampling can emit
duplicates) and both copies survive probing, the final result list contains
the same candidate twice. -/
theorem C5_duplicates_counterexample :
    ¬ (((CFST.RunDownloadTest [CFST.dupCand, CFST.dupCand] CFST.dupCfg).results.map
        CFST.resKey).Nodup) := by
  intro hnd
  have hrun : CFST.runLoop CFST.dupCfg [CFST.dupCand, CFST.dupCand] CFST.initRDState
      = ⟨[CFST.mkTestedRes CFST.dupCand, CFST.mkTestedRes CFST.dupCand], 0, 0, 2⟩ := by
    norm_num [CFST.runLoop, CFST.initRDState, CFST.dupCfg, CFST.dupCand]
  have hperm : ((CFST.RunDownloadTest [CFST.dupCand, CFST.dupCand] CFST.dupCfg).results.map
        CFST.resKey).Perm
      ([CFST.mkTestedRes CFST.dupCand, CFST.mkTestedRes CFST.dupCand].map CFST.resKey) := by
    have h0 : (CFST.RunDownloadTest [CFST.dupCand, CFST.dupCand] CFST.dupCfg).results
        = ((CFST.runLoop CFST.dupCfg [CFST.dupCand, CFST.dupCand]
            CFST.initRDState).results).mergeSort CFST.scoreDescLE := rfl
    rw [h0, hrun]
    exact (List.mergeSort_perm _ _).map CFST.resKey
  have hnd2 : ([CFST.mkTestedRes CFST.dupCand, CFST.mkTestedRes CFST.dupCand].map
      CFST.resKey).Nodup := hperm.nodup_iff.mp hnd
  simp at hnd2

/-- **C5 (amended).** For every run of `RunDownloadTest` the final result
list is sorted in non-increasing score order, and no address/port pair
occurs more often in it than among the input candidates — so the output is
duplicate-free whenever the sampled candidates are pairwise distinct, but a
doubly-sampled address may appear twice. -/
theorem C5_sorted_and_no_new_duplicates (candidates : List CFST.Cand) (cfg : CFST.Config) :
    List.Pairwise (fun a b => b.score ≤ a.score)
      (CFST.RunDownloadTest candidates cfg).results
    ∧ ∀ p : String × ℕ,
        (((CFST.RunDownloadTest candidates cfg).results).map CFST.resKey).count p
          ≤ (candidates.map CFST.candKey).count p := by
  obtain ⟨k, hk, h1, h2, h3, h4, h5c, h6⟩ :=
    CFST.runLoop_spec cfg candidates [] 0 0 0 (by omega)
  have hinit : CFST.initRDState = (⟨[], 0, 0, 0⟩ : CFST.RDState) := rfl
  have hres : (CFST.runLoop cfg candidates CFST.initRDState).results
      = CFST.resultsOf cfg (candidates.take k) := by
    rw [hinit, h2, List.nil_append]
  have hfinal : (CFST.RunDownloadTest candidates cfg).results
      = ((CFST.runLoop cfg candidates CFST.initRDState).results).mergeSort
          CFST.scoreDescLE := rfl
  constructor
  · rw [hfinal]
    have hs := List.sorted_mergeSort CFST.scoreDescLE_trans CFST.scoreDescLE_total
      ((CFST.runLoop cfg candidates CFST.initRDState).results)
    exact hs.imp (fun hab => by simpa [CFST.scoreDescLE] using hab)
  · intro p
    have hperm : (((CFST.RunDownloadTest candidates cfg).results).map CFST.resKey).Perm
        ((CFST.resultsOf cfg (candidates.take k)).map CFST.resKey) := by
      rw [hfinal, hres]
      exact (List.mergeSort_perm _ _).map CFST.resKey
    calc (((CFST.RunDownloadTest candidates cfg).results).map CFST.resKey).count p
        = ((CFST.resultsOf cfg (candidates.take k)).map CFST.resKey).count p :=
          CFST.perm_count_eq hperm p
      _ ≤ (candidates.map CFST.candKey).count p :=
          CFST.results_count_le cfg candidates k p

/-! ## Claim C10: range-file fallback -/

/-- **C10.** An absent/unreadable range file (`none`) or one with only
blank/comment lines leaves the built-in default table in force; a file
yielding at least one usable line replaces it; the effective table is never
empty. -/
theorem C10_range_file_fallback :
    CFST.effectiveRanges none = CFST.CloudflareIPv4Ranges
    ∧ (∀ content, CFST.parseLines content = [] →
        CFST.effectiveRanges (some content) = CFST.CloudflareIPv4Ranges)
    ∧ (∀ content, CFST.parseLines content ≠ [] →
        CFST.effectiveRanges (some content) = CFST.parseLines content)
    ∧ (∀ fc, CFST.effectiveRanges fc ≠ []) := by
  refine ⟨rfl, ?_, ?_, ?_⟩
  · intro content h
    simp [CFST.effectiveRanges, h]
  · intro content h
    simp [CFST.effectiveRanges, h]
  · intro fc
    match fc with
    | none => simp [CFST.effectiveRanges, CFST.CloudflareIPv4Ranges]
    | some content =>
      simp only [CFST.effectiveRanges]
      by_cases h : (CFST.parseLines content).isEmpty
      · rw [if_pos h]
        simp [CFST.CloudflareIPv4Ranges]
      · rw [if_neg h]
        simpa using h

/-- Witness for C10: a comment-only file keeps the defaults; a one-line file
replaces them. -/
theorem C10_range_file_fallback_witness :
    CFST.parseLines "# comment\n\n   " = []
    ∧ CFST.effectiveRanges (some "# comment\n\n   ") = CFST.CloudflareIPv4Ranges
    ∧ CFST.parseLines "10.0.0.0/8\n# x\n" = ["10.0.0.0/8"]
    ∧ CFST.effectiveRanges (some "10.0.0.0/8\n# x\n") = ["10.0.0.0/8"] := by
  have h1 : CFST.parseLines "# comment\n\n   " = [] := by decide
  have h2 : CFST.parseLines "10.0.0.0/8\n# x\n" = ["10.0.0.0/8"] := by decide
  refine ⟨h1, C10_range_file_fallback.2.1 _ h1, h2, ?_⟩
  rw [C10_range_file_fallback.2.2.1 _ (by rw [h2]; exact List.cons_ne_nil _ _), h2]

namespace CFST

theorem itemKey_of_addrSubnetKey {it : GenItem} {k : String}
    (h : addrSubnetKey it = some k) : itemKey it = k := by
  cases it with
  | lit s => simp [addrSubnetKey] at h
  | addr ip =>
    simp only [addrSubnetKey, Option.some.injEq] at h
    simpa [itemKey] using h

theorem itemKey_of_litEntry {it : GenItem} {k : String}
    (h : litEntry it = some k) : itemKey it = k := by
  cases it with
  | lit s =>
    simp only [litEntry, Option.some.injEq] at h
    simpa [itemKey] using h
  | addr ip => simp [litEntry] at h

theorem genUniqueLoop_stop (ranges : List String) (rnd : ℕ → ℕ)
    (maxScan fuel ri attempts : ℕ) (seen : List String) (acc : List GenItem)
    (hstop : maxScan ≤ acc.length) :
    genUniqueLoop ranges rnd maxScan (fuel + 1) ri seen acc attempts
      = (acc, attempts) := by
  simp [genUniqueLoop, hstop]

theorem genUniqueLoop_cidr_none (ranges : List String) (rnd : ℕ → ℕ)
    (maxScan fuel ri attempts : ℕ) (seen : List String) (acc : List GenItem)
    (hstop : ¬ maxScan ≤ acc.length)
    (hsl : containsSlash (ranges.getD (rnd ri % ranges.length) "") = true)
    (hip : randIPFromCIDR (ranges.getD (rnd ri % ranges.length) "") (rnd (ri + 1)) = none) :
    genUniqueLoop ranges rnd maxScan (fuel + 1) ri seen acc attempts
      = genUniqueLoop ranges rnd maxScan fuel (ri + 2) seen acc (attempts + 1) := by
  have h1 := hsl
  have h2 := hip
  simp only [List.getD, List.get?_eq_getElem?] at h1 h2
  simp [genUniqueLoop, hstop, h1, h2]

theorem genUniqueLoop_cidr_seen (ranges : List String) (rnd : ℕ → ℕ)
    (maxScan fuel ri attempts : ℕ) (seen : List String) (acc : List GenItem) (ip : ℕ)
    (hstop : ¬ maxScan ≤ acc.length)
    (hsl : containsSlash (ranges.getD (rnd ri % ranges.length) "") = true)
    (hip : randIPFromCIDR (ranges.getD (rnd ri % ranges.length) "") (rnd (ri + 1)) = some ip)
    (hkey : subnetKeyString ip ∈ seen) :
    genUniqueLoop ranges rnd maxScan (fuel + 1) ri seen acc attempts
      = genUniqueLoop ranges rnd maxScan fuel (ri + 2) seen acc (attempts + 1) := by
  have h1 := hsl
  have h2 := hip
  simp only [List.getD, List.get?_eq_getElem?] at h1 h2
  simp [genUniqueLoop, hstop, h1, h2, hkey]

theorem genUniqueLoop_cidr_new (ranges : List String) (rnd : ℕ → ℕ)
    (maxScan fuel ri attempts : ℕ) (seen : List String) (acc : List GenItem) (ip : ℕ)
    (hstop : ¬ maxScan ≤ acc.length)
    (hsl : containsSlash (ranges.getD (rnd ri % ranges.length) "") = true)
    (hip : randIPFromCIDR (ranges.getD (rnd ri % ranges.length) "") (rnd (ri + 1)) = some ip)
    (hkey : ¬ subnetKeyString ip ∈ seen) :
    genUniqueLoop ranges rnd maxScan (fuel + 1) ri seen acc attempts
      = genUniqueLoop ranges rnd maxScan fuel (ri + 2) (subnetKeyString ip :: seen)
          (acc ++ [GenItem.addr ip]) (attempts + 1) := by
  have h1 := hsl
  have h2 := hip
  simp only [List.getD, List.get?_eq_getElem?] at h1 h2
  simp [genUniqueLoop, hstop, h1, h2, hkey]

theorem genUniqueLoop_lit_seen (ranges : List String) (rnd : ℕ → ℕ)
    (maxScan fuel ri attempts : ℕ) (seen : List String) (acc : List GenItem)
    (hstop : ¬ maxScan ≤ acc.length)
    (hsl : ¬ containsSlash (ranges.getD (rnd ri % ranges.length) "") = true)
    (hseen : ranges.getD (rnd ri % ranges.length) "" ∈ seen) :
    genUniqueLoop ranges rnd maxScan (fuel + 1) ri seen acc attempts
      = genUniqueLoop ranges rnd maxScan fuel (ri + 1) seen acc (attempts + 1) := by
  have h1 := hsl
  have h2 := hseen
  simp only [List.getD, List.get?_eq_getElem?] at h1 h2
  simp [genUniqueLoop, hstop, h1, h2]

theorem genUniqueLoop_lit_new (ranges : List String) (rnd : ℕ → ℕ)
    (maxScan fuel ri attempts : ℕ) (seen : List String) (acc : List GenItem)
    (hstop : ¬ maxScan ≤ acc.length)
    (hsl : ¬ containsSlash (ranges.getD (rnd ri % ranges.length) "") = true)
    (hseen : ¬ ranges.getD (rnd ri % ranges.length) "" ∈ seen) :
    genUniqueLoop ranges rnd maxScan (fuel + 1) ri seen acc attempts
      = genUniqueLoop ranges rnd maxScan fuel (ri + 1)
          (ranges.getD (rnd ri % ranges.length) "" :: seen)
          (acc ++ [GenItem.lit (ranges.getD (rnd ri % ranges.length) "")])
          (attempts + 1) := by
  have h1 := hsl
  have h2 := hseen
  simp only [List.getD, List.get?_eq_getElem?] at h1 h2
  simp [genUniqueLoop, hstop, h1, h2]

end CFST

namespace CFST

theorem genUniqueLoop_spec (ranges : List String) (rnd : ℕ → ℕ) (maxScan : ℕ) :
    ∀ (fuel ri attempts : ℕ) (seen : List String) (acc : List GenItem),
      (∀ it ∈ acc, itemKey it ∈ seen) →
      (acc.filterMap addrSubnetKey).Nodup →
      (acc.filterMap litEntry).Nodup →
      acc.length ≤ maxScan →
      ((genUniqueLoop ranges rnd maxScan fuel ri seen acc attempts).1.length ≤ maxScan
      ∧ (genUniqueLoop ranges rnd maxScan fuel ri seen acc attempts).2 ≤ attempts + fuel
      ∧ ((genUniqueLoop ranges rnd maxScan fuel ri seen acc
            attempts).1.filterMap addrSubnetKey).Nodup
      ∧ ((genUniqueLoop ranges rnd maxScan fuel ri seen acc
            attempts).1.filterMap litEntry).Nodup) := by
  intro fuel
  induction fuel with
  | zero =>
    intro ri attempts seen acc hmem hnda hndl hlen
    exact ⟨hlen, by show attempts ≤ attempts + 0; omega, hnda, hndl⟩
  | succ fuel ih =>
    intro ri attempts seen acc hmem hnda hndl hlen
    by_cases hstop : maxScan ≤ acc.length
    · rw [genUniqueLoop_stop ranges rnd maxScan fuel ri attempts seen acc hstop]
      exact ⟨hlen, by show attempts ≤ attempts + (fuel + 1); omega, hnda, hndl⟩
    · by_cases hsl : containsSlash (ranges.getD (rnd ri % ranges.length) "") = true
      · cases hip : randIPFromCIDR (ranges.getD (rnd ri % ranges.length) "") (rnd (ri + 1)) with
        | none =>
          rw [genUniqueLoop_cidr_none ranges rnd maxScan fuel ri attempts seen acc
            hstop hsl hip]
          obtain ⟨a1, a2, a3, a4⟩ := ih (ri + 2) (attempts + 1) seen acc hmem hnda hndl hlen
          exact ⟨a1, by omega, a3, a4⟩
        | some ip =>
          by_cases hkey : subnetKeyString ip ∈ seen
          · rw [genUniqueLoop_cidr_seen ranges rnd maxScan fuel ri attempts seen acc ip
              hstop hsl hip hkey]
            obtain ⟨a1, a2, a3, a4⟩ := ih (ri + 2) (attempts + 1) seen acc hmem hnda hndl hlen
            exact ⟨a1, by omega, a3, a4⟩
          · rw [genUniqueLoop_cidr_new ranges rnd maxScan fuel ri attempts seen acc ip
              hstop hsl hip hkey]
            have hm2 : ∀ it ∈ acc ++ [GenItem.addr ip],
                itemKey it ∈ subnetKeyString ip :: seen := by
              intro it hit
              rcases List.mem_append.mp hit with hin | hnew
              · exact List.mem_cons_of_mem _ (hmem it hin)
              · have heq : it = GenItem.addr ip := by simpa using hnew
                subst heq
                simp [itemKey]
            have hna2 : ((acc ++ [GenItem.addr ip]).filterMap addrSubnetKey).Nodup := by
              rw [List.filterMap_append, List.nodup_append]
              refine ⟨hnda, by simp [List.filterMap_cons, addrSubnetKey], ?_⟩
              intro k hk1 hk2
              obtain ⟨it, hit, hsome⟩ := List.mem_filterMap.mp hk1
              have hkeyit : itemKey it = k := itemKey_of_addrSubnetKey hsome
              have hk3 : k = subnetKeyString ip := by
                simpa [List.filterMap_cons, addrSubnetKey] using hk2
              exact hkey (by rw [← hk3, ← hkeyit]; exact hmem it hit)
            have hnl2 : ((acc ++ [GenItem.addr ip]).filterMap litEntry).Nodup := by
              rw [List.filterMap_append]
              simpa [List.filterMap_cons, litEntry] using hndl
            have hl2 : (acc ++ [GenItem.addr ip]).length ≤ maxScan := by
              simp only [List.length_append, List.length_cons, List.length_nil]
              omega
            obtain ⟨a1, a2, a3, a4⟩ := ih (ri + 2) (attempts + 1) _ _ hm2 hna2 hnl2 hl2
            exact ⟨a1, by omega, a3, a4⟩
      · by_cases hseen : ranges.getD (rnd ri % ranges.length) "" ∈ seen
        · rw [genUniqueLoop_lit_seen ranges rnd maxScan fuel ri attempts seen acc
            hstop hsl hseen]
          obtain ⟨a1, a2, a3, a4⟩ := ih (ri + 1) (attempts + 1) seen acc hmem hnda hndl hlen
          exact ⟨a1, by omega, a3, a4⟩
        · rw [genUniqueLoop_lit_new ranges rnd maxScan fuel ri attempts seen acc
            hstop hsl hseen]
          have hm2 : ∀ it ∈ acc ++ [GenItem.lit (ranges.getD (rnd ri % ranges.length) "")],
              itemKey it ∈ ranges.getD (rnd ri % ranges.length) "" :: seen := by
            intro it hit
            rcases List.mem_append.mp hit with hin | hnew
            · exact List.mem_cons_of_mem _ (hmem it hin)
            · have heq : it = GenItem.lit (ranges.getD (rnd ri % ranges.length) "") := by
                simpa using hnew
              subst heq
              simp [itemKey]
          have hna2 : ((acc ++ [GenItem.lit (ranges.getD (rnd ri % ranges.length)
              "")]).filterMap addrSubnetKey).Nodup := by
            rw [List.filterMap_append]
            simpa [List.filterMap_cons, addrSubnetKey] using hnda
          have hnl2 : ((acc ++ [GenItem.lit (ranges.getD (rnd ri % ranges.length)
              "")]).filterMap litEntry).Nodup := by
            rw [List.filterMap_append, List.nodup_append]
            refine ⟨hndl, by simp [List.filterMap_cons, litEntry], ?_⟩
            intro k hk1 hk2
            obtain ⟨it, hit, hsome⟩ := List.mem_filterMap.mp hk1
            have hkeyit : itemKey it = k := itemKey_of_litEntry hsome
            have hk3 : k = ranges.getD (rnd ri % ranges.length) "" := by
              simpa [List.filterMap_cons, litEntry] using hk2
            exact hseen (by rw [← hk3, ← hkeyit]; exact hmem it hit)
          have hl2 : (acc ++ [GenItem.lit (ranges.getD (rnd ri % ranges.length)
              "")]).length ≤ maxScan := by
            simp only [List.length_append, List.length_cons, List.length_nil]
            omega
          obtain ⟨a1, a2, a3, a4⟩ := ih (ri + 1) (attempts + 1) _ _ hm2 hna2 hnl2 hl2
          exact ⟨a1, by omega, a3, a4⟩

end CFST

/-! ## Claim C6: unique-mode sampling -/

/-- **C6.** Unique-mode sampling returns at most `maxScan` items, performs
at most `maxScan * 5` attempts, the subnet keys of its CIDR-drawn addresses
are pairwise distinct, each literal table entry appears at most once, and
`GenerateIPs` with `unique = true` is exactly the rendering of those
items. -/
theorem C6_unique_sampling (ranges : List String) (rnd : ℕ → ℕ) (maxScan : ℕ) :
    ((CFST.genUnique ranges rnd maxScan).1).length ≤ maxScan
    ∧ (CFST.genUnique ranges rnd maxScan).2 ≤ maxScan * 5
    ∧ (((CFST.genUnique ranges rnd maxScan).1).filterMap CFST.addrSubnetKey).Nodup
    ∧ (((CFST.genUnique ranges rnd maxScan).1).filterMap CFST.litEntry).Nodup
    ∧ (∀ fc, CFST.GenerateIPs maxScan true fc rnd
        = ((CFST.genUnique (CFST.effectiveRanges fc) rnd maxScan).1).map
            CFST.renderItem) := by
  obtain ⟨a1, a2, a3, a4⟩ := CFST.genUniqueLoop_spec ranges rnd maxScan (maxScan * 5) 0 0 [] []
    (by simp) (by simp) (by simp) (by simp)
  refine ⟨a1, by simpa [CFST.genUnique] using a2, a3, a4, ?_⟩
  intro fc
  simp [CFST.GenerateIPs]

namespace CFST

theorem listSwap_length (l : List String) (i j : ℕ) :
    (listSwap l i j).length = l.length := by
  unfold listSwap
  cases h1 : l.get? i <;> cases h2 : l.get? j <;> simp

theorem listSwap_subset (l : List String) (i j : ℕ) :
    ∀ x ∈ listSwap l i j, x ∈ l := by
  intro x hx
  unfold listSwap at hx
  cases h1 : l.get? i with
  | none => rw [h1] at hx; exact hx
  | some a =>
    cases h2 : l.get? j with
    | none => rw [h1, h2] at hx; exact hx
    | some b =>
      rw [h1, h2] at hx
      rcases List.mem_or_eq_of_mem_set hx with hx2 | hx2
      · rcases List.mem_or_eq_of_mem_set hx2 with hx3 | hx3
        · exact hx3
        · rw [hx3]; exact List.get?_mem h2
      · rw [hx2]; exact List.get?_mem h1

theorem shuffleAux_length (rnd : ℕ → ℕ) :
    ∀ (n : ℕ) (l : List String), (shuffleAux rnd n l).length = l.length := by
  intro n
  induction n with
  | zero => intro l; rfl
  | succ n ih =>
    intro l
    simp only [shuffleAux]
    rw [ih, listSwap_length]

theorem shuffleAux_subset (rnd : ℕ → ℕ) :
    ∀ (n : ℕ) (l : List String) (x : String), x ∈ shuffleAux rnd n l → x ∈ l := by
  intro n
  induction n with
  | zero => intro l x hx; exact hx
  | succ n ih =>
    intro l x hx
    simp only [shuffleAux] at hx
    exact listSwap_subset _ _ _ x (ih _ x hx)

theorem shuffle_length (rnd : ℕ → ℕ) (l : List String) :
    (shuffle rnd l).length = l.length := shuffleAux_length rnd (l.length - 1) l

theorem shuffle_subset (rnd : ℕ → ℕ) (l : List String) :
    ∀ x ∈ shuffle rnd l, x ∈ l :=
  fun x hx => shuffleAux_subset rnd (l.length - 1) l x hx

end CFST

/-! ## Claim C7: bulk-mode sampling -/

/-- **C7.** Bulk-mode sampling concatenates per-range draws into a pool,
shuffles and truncates: with `maxScan = 0` the result is empty; whenever
`maxScan` is below the pool size, exactly `maxScan` addresses are returned,
each an element of the pool; and `GenerateIPs` with `unique = false` is
exactly this pipeline over the effective range table. -/
theorem C7_bulk_sampling :
    (∀ fc rnd, CFST.GenerateIPs 0 false fc rnd = [])
    ∧ (∀ ranges rnd maxScan,
        maxScan < (CFST.genBulkPool ranges rnd maxScan).length →
        (CFST.genBulk ranges rnd maxScan).length = maxScan
        ∧ ∀ x ∈ CFST.genBulk ranges rnd maxScan, x ∈ CFST.genBulkPool ranges rnd maxScan)
    ∧ (∀ fc rnd maxScan, CFST.GenerateIPs maxScan false fc rnd
        = CFST.genBulk (CFST.effectiveRanges fc) rnd maxScan) := by
  refine ⟨?_, ?_, ?_⟩
  · intro fc rnd
    show CFST.genBulk (CFST.effectiveRanges fc) rnd 0 = []
    simp only [CFST.genBulk]
    by_cases h : (0 : ℕ) <
        (CFST.shuffle rnd (CFST.genBulkPool (CFST.effectiveRanges fc) rnd 0)).length
    · rw [if_pos h, List.take_zero]
    · rw [if_neg h]
      have h0 : (CFST.shuffle rnd
          (CFST.genBulkPool (CFST.effectiveRanges fc) rnd 0)).length = 0 := by omega
      exact List.eq_nil_of_length_eq_zero h0
  · intro ranges rnd maxScan hlt
    have hsl : (CFST.shuffle rnd (CFST.genBulkPool ranges rnd maxScan)).length
        = (CFST.genBulkPool ranges rnd maxScan).length :=
      CFST.shuffle_length rnd (CFST.genBulkPool ranges rnd maxScan)
    constructor
    · simp only [CFST.genBulk]
      rw [if_pos (by omega), List.length_take, hsl, min_eq_left (le_of_lt hlt)]
    · intro x hx
      simp only [CFST.genBulk] at hx
      rw [if_pos (by omega)] at hx
      exact CFST.shuffle_subset rnd _ x (List.take_subset _ _ hx)
  · intro fc rnd maxScan
    show CFST.genBulk (CFST.effectiveRanges fc) rnd maxScan
        = CFST.genBulk (CFST.effectiveRanges fc) rnd maxScan
    rfl

/-- Witness for C7: a four-literal table with `maxScan = 2` has a pool of
four entries; the theorem yields exactly two results drawn from it. -/
theorem C7_bulk_sampling_witness :
    2 < (CFST.genBulkPool (CFST.effectiveRanges (some "a\nb\nc\nd"))
        (fun _ => 0) 2).length
    ∧ (CFST.genBulk (CFST.effectiveRanges (some "a\nb\nc\nd")) (fun _ => 0) 2).length = 2
    ∧ ∀ x ∈ CFST.genBulk (CFST.effectiveRanges (some "a\nb\nc\nd")) (fun _ => 0) 2,
        x ∈ CFST.genBulkPool (CFST.effectiveRanges (some "a\nb\nc\nd")) (fun _ => 0) 2 := by
  have hlt : 2 < (CFST.genBulkPool (CFST.effectiveRanges (some "a\nb\nc\nd"))
      (fun _ => 0) 2).length := by decide
  exact ⟨hlt, (C7_bulk_sampling.2.1 _ (fun _ => 0) 2 hlt).1,
    (C7_bulk_sampling.2.1 _ (fun _ => 0) 2 hlt).2⟩
